import Mathlib

/-!
Shallow embedding of the thruput throughput-measurement engine (client.go,
server.go, main.go).  Pure computations (unit selection, rate arithmetic,
report construction) are translated directly; the stateful client run loop is
modelled by explicit state passing over the sequence of timer firings, with
the concurrently-written per-connection counters and the wall clock supplied
as inputs (one (counter, now) observation per connection per sampling round,
matching the per-id reads in Client.Run).  Go uint64 arithmetic is Nat with
explicit reduction modulo 2^64; Go float64 division is modelled over the
rationals together with the IEEE special values produced by a zero
denominator.
-/

/-- Modulus of Go uint64 arithmetic. -/
def U64MOD : Nat := 2 ^ 64

/-- Go uint64 subtraction a - b, wrapping modulo 2^64. -/
def u64sub (a b : Nat) : Nat := (a % U64MOD + (U64MOD - b % U64MOD)) % U64MOD

/-- Result of a Go float64 computation: a finite value (kept exact as a
rational) or one of the IEEE special values that division by zero yields. -/
inductive GoFloat
  | finite (q : ℚ)
  | posInf
  | negInf
  | nan
deriving DecidableEq

/-- Go float64 division: a finite nonzero numerator over a zero denominator
gives a signed infinity, 0/0 gives NaN, otherwise the exact quotient. -/
def goDiv (a b : ℚ) : GoFloat :=
  if b = 0 then
    if a = 0 then GoFloat.nan
    else if 0 < a then GoFloat.posInf
    else GoFloat.negInf
  else GoFloat.finite (a / b)

/-- Rate-unit auto selection, autoLabel (client.go lines 65-81): strict
thresholds 1e9, 1e6, 1e3 on the byte-per-second input, divisors converting to
gbps / mbps / kbps, with plain bps as the fallback. -/
def autoLabel (bps : ℚ) : ℚ × String :=
  if bps > 1000000000 then (bps / 125000000, "gbps")
  else if bps > 1000000 then (bps / 125000, "mbps")
  else if bps > 1000 then (bps / 125, "kbps")
  else (bps, "bps")

/-- Reading of claim C4 taken from the specification words, for comparison
with autoLabel: the largest unit among tera, giga, mega, kilo, base, checked
in descending order, whose conversion keeps the displayed magnitude at least
1 (divisors continue the implementation's bytes-in, bits-label pattern, so
tera corresponds to 1.25e11). -/
def autoLabelSpecC4 (bps : ℚ) : ℚ × String :=
  if 1 ≤ bps / 125000000000 then (bps / 125000000000, "tbps")
  else if 1 ≤ bps / 125000000 then (bps / 125000000, "gbps")
  else if 1 ≤ bps / 125000 then (bps / 125000, "mbps")
  else if 1 ≤ bps / 125 then (bps / 125, "kbps")
  else (bps, "bps")

/-- Byte-count labeling inside report (client.go lines 83-96): the sent value
and its unit, chosen by strict thresholds 1e9 and 1e6 on the uint64 byte
count, with KB as the fallback for everything else. -/
def sentLabel (sentb : Nat) : ℚ × String :=
  if sentb > 1000000000 then ((sentb : ℚ) / 1000000000, "GB")
  else if sentb > 1000000 then ((sentb : ℚ) / 1000000, "MB")
  else ((sentb : ℚ) / 1000, "KB")

/-- Reading of claim C9 taken from the specification words, for comparison
with sentLabel: a TB/GB/MB/KB table based on powers of 1000. -/
def sentLabelSpecC9 (sentb : Nat) : ℚ × String :=
  if sentb > 1000000000000 then ((sentb : ℚ) / 1000000000000, "TB")
  else if sentb > 1000000000 then ((sentb : ℚ) / 1000000000, "GB")
  else if sentb > 1000000 then ((sentb : ℚ) / 1000000, "MB")
  else ((sentb : ℚ) / 1000, "KB")

/-- Modelled from the spec: makeIntervalTimer and makeStopTimer are invoked in
client.go (lines 126-127 and 144) but defined nowhere in the sources.  Per
spec section 4.1 each returns a single-use wake-up signal that fires exactly
once after its configured delay, or never fires when the delay is ≤ 0; the
signal is modelled by its optional firing offset. -/
def makeTimer (delay : Int) : Option Int :=
  if 0 < delay then some delay else none

/-- One line emitted through report by Client.Run: the raw arguments id,
byte count, elapsed seconds, window rate and mean rate. -/
structure ReportLine where
  id : Nat
  sentb : Nat
  period : ℚ
  rate : GoFloat
  mean : GoFloat
deriving DecidableEq

/-- Placeholder line used as the default of list indexing. -/
def defaultLine : ReportLine :=
  { id := 0, sentb := 0, period := 0, rate := GoFloat.nan, mean := GoFloat.nan }

/-- Value of the report line the sampling loop builds for one connection from
its start time, its saved (lastCount, lastTime) pair and the (counter, now)
pair observed in this round (client.go lines 132-142). -/
def roundLine (id : Nat) (st : ℚ) (last : Nat × ℚ) (obs : Nat × ℚ) : ReportLine :=
  { id := id, sentb := u64sub obs.1 last.1, period := obs.2 - st,
    rate := goDiv (u64sub obs.1 last.1 : Nat) (obs.2 - last.2),
    mean := goDiv (obs.1 : Nat) (obs.2 - st) }

/-- One sampling round of Client.Run (client.go lines 131-143): for each
connection id in ascending order, read the counter and the clock, compute
window bytes by uint64 difference against lastCounts, derive the window and
mean rates, and emit one report line per connection. -/
def roundLines : Nat → List ℚ → List (Nat × ℚ) → List (Nat × ℚ) → List ReportLine
  | id, st :: sts, last :: lasts, obs :: reads =>
    roundLine id st last obs :: roundLines (id + 1) sts lasts reads
  | _, _, _, _ => []

/-- Sampling rounds of Client.Run, round-structured: after each round the
saved lastCounts / lastTimes become exactly the values just observed
(client.go lines 140-141). -/
def runRounds (sts : List ℚ) : List (Nat × ℚ) → List (List (Nat × ℚ)) → List (List ReportLine)
  | _, [] => []
  | lasts, r :: rs => roundLines 0 sts lasts r :: runRounds sts r rs

/-- Flat stream of progress report lines of Client.Run. -/
def runLoop (sts : List ℚ) : List (Nat × ℚ) → List (List (Nat × ℚ)) → List ReportLine
  | _, [] => []
  | lasts, r :: rs => roundLines 0 sts lasts r ++ runLoop sts r rs

/-- Final report lines of Client.Run after the stop signal (client.go lines
150-154): one line per connection in ascending id order, reporting the total
count and mean rate; rate and mean coincide there. -/
def finalLines : Nat → List ℚ → List (Nat × ℚ) → List ReportLine
  | id, st :: sts, obs :: fins =>
    { id := id, sentb := obs.1, period := obs.2 - st,
      rate := goDiv (obs.1 : Nat) (obs.2 - st),
      mean := goDiv (obs.1 : Nat) (obs.2 - st) } :: finalLines (id + 1) sts fins
  | _, _, _ => []

/-- Initial saved state of Client.Run (client.go lines 114-124): lastCounts
start at zero and lastTimes at the per-connection start times. -/
def initLasts (sts : List ℚ) : List (Nat × ℚ) :=
  sts.map fun st => (0, st)

/-- Complete report-line output of Client.Run (client.go lines 111-157): the
progress rounds observed before the stop signal, followed by the final lines.
The per-connection counter and clock observations are inputs, one pair per
connection per round and one pair per connection for the final loop. -/
def clientRun (sts : List ℚ) (rounds : List (List (Nat × ℚ))) (fins : List (Nat × ℚ)) :
    List ReportLine :=
  runLoop sts (initLasts sts) rounds ++ finalLines 0 sts fins

/-- Window sequence obtained by differencing consecutive counter observations
(uint64 subtraction), starting from the saved last count. -/
def connWindows (lc : Nat) : List Nat → List Nat
  | [] => []
  | c :: cs => u64sub c lc :: connWindows c cs

/-- Reported window bytes of connection id, one entry per sampling round. -/
def windowsFor (sts : List ℚ) (lasts : List (Nat × ℚ)) (rounds : List (List (Nat × ℚ)))
    (id : Nat) : List Nat :=
  (runRounds sts lasts rounds).map fun lines => (lines.getD id defaultLine).sentb

/-- Outcome of one I/O call of a transfer loop: bytes moved and an optional
error, which is either the clean end-of-stream or any other I/O error. -/
inductive IOErr
  | eof
  | other
deriving DecidableEq

/-- One completion of conn.Write or conn.Read as seen by a transfer loop. -/
structure IOEvent where
  n : Nat
  err : Option IOErr
deriving DecidableEq

/-- Observable state of writeForever: the uint64 byte counter, the log of
reported errors, the number of loop iterations performed, and whether the
connection has been closed. -/
structure WriteState where
  count : Nat
  logged : List IOErr
  iterations : Nat
  closed : Bool
deriving DecidableEq

/-- Initial state of writeForever. -/
def wfInit : WriteState :=
  { count := 0, logged := [], iterations := 0, closed := false }

/-- writeForever (client.go lines 52-63) driven by a finite prefix of write
completions: each iteration logs a non-EOF error if one occurred and then
unconditionally adds the returned byte count to the shared counter (uint64).
The loop body contains no break statement and no Close call, so every
completion of the prefix is consumed and the connection is never closed. -/
def writeForever (s : WriteState) : List IOEvent → WriteState
  | [] => s
  | e :: es =>
    writeForever
      { count := (s.count + e.n) % U64MOD,
        logged := match e.err with
          | some IOErr.other => s.logged ++ [IOErr.other]
          | _ => s.logged,
        iterations := s.iterations + 1,
        closed := false } es

/-- Successive values of the shared byte counter along a run of writeForever,
starting from the given value. -/
def counterTrace (count : Nat) : List IOEvent → List Nat
  | [] => [count]
  | e :: es => count :: counterTrace ((count + e.n) % U64MOD) es

/-- State at an exit of readForever: the errors logged and whether the
deferred handler closed the connection. -/
structure ReadExit where
  logged : List IOErr
  closed : Bool
deriving DecidableEq

/-- readForever (server.go lines 34-51) driven by a finite prefix of read
completions: the loop breaks at the first error, silently on EOF and after
logging it otherwise, and the deferred handler closes the connection on every
exit.  Returns none when the prefix is exhausted with the loop still
running. -/
def readForever (logged : List IOErr) : List IOEvent → Option ReadExit
  | [] => none
  | e :: es =>
    match e.err with
    | none => readForever logged es
    | some IOErr.eof => some { logged := logged, closed := true }
    | some IOErr.other => some { logged := logged ++ [IOErr.other], closed := true }

/-- Transport selector of NewClient. -/
inductive Protocol
  | tcp
  | udp
  | other
deriving DecidableEq

/-- Outcome of the external calls made for one connection attempt: whether
the dial failed, and whether SetWriteBuffer / SetReadBuffer failed. -/
structure AttemptResult where
  dialErr : Bool
  setWriteErr : Bool
  setReadErr : Bool

/-- Errors NewClient can return. -/
inductive NCErr
  | unknownProtocol
  | dialFailed
  | setWriteFailed
  | setReadFailed
deriving DecidableEq

/-- Result of NewClient: the connections accumulated (each represented by its
attempt index), the error returned, and the connections it closed. -/
structure NCResult where
  conns : List Nat
  err : Option NCErr
  closedConns : List Nat
deriving DecidableEq

/-- Error produced by one iteration of the NewClient loop body for a known
protocol, following the order of checks in client.go lines 26-46: dial first,
then, only when sysBufSize > 0, SetWriteBuffer then SetReadBuffer. -/
def attemptErr (sysBufSize : Int) (a : AttemptResult) : Option NCErr :=
  if a.dialErr then some NCErr.dialFailed
  else if 0 < sysBufSize then
    if a.setWriteErr then some NCErr.setWriteFailed
    else if a.setReadErr then some NCErr.setReadFailed
    else none
  else none

/-- Loop of NewClient (client.go lines 24-48): for each attempt index, switch
on the protocol, dial, optionally tune the socket buffers, and append the
connection; any error returns immediately with the connections accumulated so
far, and no path contains a Close call. -/
def newClientGo (protocol : Protocol) (sysBufSize : Int) (oracle : Nat → AttemptResult) :
    Nat → Nat → List Nat → NCResult
  | _, 0, conns => { conns := conns, err := none, closedConns := [] }
  | i, rem + 1, conns =>
    match protocol with
    | Protocol.other => { conns := conns, err := some NCErr.unknownProtocol, closedConns := [] }
    | _ =>
      let a := oracle i
      if a.dialErr then { conns := conns, err := some NCErr.dialFailed, closedConns := [] }
      else if 0 < sysBufSize then
        if a.setWriteErr then
          { conns := conns, err := some NCErr.setWriteFailed, closedConns := [] }
        else if a.setReadErr then
          { conns := conns, err := some NCErr.setReadFailed, closedConns := [] }
        else newClientGo protocol sysBufSize oracle (i + 1) rem (conns ++ [i])
      else newClientGo protocol sysBufSize oracle (i + 1) rem (conns ++ [i])

/-- NewClient (client.go lines 23-50): run the connection-building loop for
numConns attempts starting from an empty connection set. -/
def NewClient (protocol : Protocol) (sysBufSize : Int) (numConns : Nat)
    (oracle : Nat → AttemptResult) : NCResult :=
  newClientGo protocol sysBufSize oracle 0 numConns []

/-! Helper lemmas shared by the claim theorems. -/

/-- Uint64 subtraction agrees with Nat subtraction when no wrap occurs. -/
theorem u64sub_eq {c lc : Nat} (h1 : lc ≤ c) (h2 : c < U64MOD) : u64sub c lc = c - lc := by
  have hlc : lc < U64MOD := lt_of_le_of_lt h1 h2
  unfold u64sub
  rw [Nat.mod_eq_of_lt h2, Nat.mod_eq_of_lt hlc]
  have : c + (U64MOD - lc) = (c - lc) + U64MOD := by omega
  rw [this, Nat.add_mod_right, Nat.mod_eq_of_lt (by omega)]

/-- The writeForever loop performs one iteration per I/O completion. -/
theorem writeForever_iterations (evs : List IOEvent) (s : WriteState) :
    (writeForever s evs).iterations = s.iterations + evs.length := by
  induction evs generalizing s with
  | nil => simp [writeForever]
  | cons e es ih => simp [writeForever, ih]; omega

/-- The writeForever loop never closes the connection. -/
theorem writeForever_closed (evs : List IOEvent) (s : WriteState) (h : s.closed = false) :
    (writeForever s evs).closed = false := by
  induction evs generalizing s with
  | nil => simpa [writeForever] using h
  | cons e es ih => simp [writeForever]; exact ih _ rfl

/-- The counter after writeForever is the initial value plus every returned
byte count, reduced modulo 2^64. -/
theorem writeForever_count (evs : List IOEvent) (s : WriteState) (hs : s.count < U64MOD) :
    (writeForever s evs).count = (s.count + (evs.map IOEvent.n).sum) % U64MOD := by
  induction evs generalizing s with
  | nil => simp [writeForever, Nat.mod_eq_of_lt hs]
  | cons e es ih =>
    rw [writeForever]
    rw [ih _ (Nat.mod_lt _ (by unfold U64MOD; positivity))]
    simp [Nat.mod_add_mod, Nat.add_assoc]

/-- Every exit of readForever has run the deferred close. -/
theorem readForever_closes (evs : List IOEvent) (logged : List IOErr) (ex : ReadExit)
    (h : readForever logged evs = some ex) : ex.closed = true := by
  induction evs generalizing logged with
  | nil => simp [readForever] at h
  | cons e es ih =>
    rw [readForever] at h
    match he : e.err with
    | none => rw [he] at h; exact ih _ h
    | some IOErr.eof => rw [he] at h; cases h; rfl
    | some IOErr.other => rw [he] at h; cases h; rfl

/-- Heads of counter traces. -/
theorem counterTrace_head (c : Nat) (evs : List IOEvent) :
    (counterTrace c evs).head? = some c := by
  cases evs <;> rfl

/-- Without uint64 overflow the counter trace is monotonically
non-decreasing. -/
theorem counterTrace_chain (evs : List IOEvent) (c : Nat)
    (h : c + (evs.map IOEvent.n).sum < U64MOD) :
    List.Chain' (· ≤ ·) (counterTrace c evs) := by
  induction evs generalizing c with
  | nil => simp [counterTrace]
  | cons e es ih =>
    rw [counterTrace]
    have hsum : e.n + (es.map IOEvent.n).sum = ((e :: es).map IOEvent.n).sum := by simp
    have hle : c + e.n < U64MOD := by
      have : (0 : Nat) ≤ (es.map IOEvent.n).sum := Nat.zero_le _
      simp at h; omega
    rw [List.chain'_cons']
    constructor
    · intro b hb
      rw [counterTrace_head] at hb
      cases hb
      rw [Nat.mod_eq_of_lt hle]
      omega
    · apply ih
      rw [Nat.mod_eq_of_lt hle]
      simp at h ⊢
      omega

/-! Claim theorems. -/

/-- Claim C1 (code bug): when the stop signal fires, Client.Run emits one
final report line per connection in ascending connection-id order and then
returns — no aggregate summary line summing the connections' mean rates is
emitted, although the repository README calls for adding the results together
and printing the sum.  Evaluated at a two-connection run with start times 0,
no progress rounds, and final observations (10 bytes, t=2) and (20 bytes,
t=2): the output is exactly the two per-connection lines. -/
theorem clientRun_stop_no_aggregate :
    clientRun [0, 0] [] [(10, 2), (20, 2)] =
      [{ id := 0, sentb := 10, period := 2, rate := GoFloat.finite 5, mean := GoFloat.finite 5 },
       { id := 1, sentb := 20, period := 2, rate := GoFloat.finite 10, mean := GoFloat.finite 10 }] ∧
    (clientRun [0, 0] [] [(10, 2), (20, 2)]).map ReportLine.id = [0, 1] ∧
    (clientRun [0, 0] [] [(10, 2), (20, 2)]).length = 2 := by
  refine ⟨?_, rfl, rfl⟩
  norm_num [clientRun, runLoop, finalLines, initLasts, goDiv]

/-- Claim C2 (counterexample): writeForever does not stop at a clean
end-of-stream and does not close its connection.  After a Write returning
(0, EOF) the loop performs a further iteration, consuming the next completion
(7, nil) and adding its bytes, with the connection still open. -/
theorem writeForever_continues_after_eof_cex :
    (writeForever wfInit [{ n := 0, err := some IOErr.eof }, { n := 7, err := none }]).iterations
      = 2 ∧
    (writeForever wfInit [{ n := 0, err := some IOErr.eof }, { n := 7, err := none }]).closed
      = false ∧
    (writeForever wfInit [{ n := 0, err := some IOErr.eof }, { n := 7, err := none }]).count
      = 7 := by
  refine ⟨rfl, rfl, ?_⟩
  decide

/-- Claim C2 (amended): the server transfer loop readForever stops at the
first error — silently on EOF, after logging it otherwise — and its deferred
handler closes the connection on every exit; the client transfer loop
writeForever, however, never stops on EOF or any other error — it logs
non-EOF errors, keeps iterating through every I/O completion, and never
closes its connection. -/
theorem transfer_loop_exit_paths (evs : List IOEvent) (logged : List IOErr) (n : Nat)
    (es : List IOEvent) :
    (∀ ex, readForever logged evs = some ex → ex.closed = true) ∧
    readForever logged ({ n := n, err := some IOErr.eof } :: es) =
      some { logged := logged, closed := true } ∧
    readForever logged ({ n := n, err := some IOErr.other } :: es) =
      some { logged := logged ++ [IOErr.other], closed := true } ∧
    (writeForever wfInit evs).closed = false ∧
    (writeForever wfInit evs).iterations = evs.length := by
  refine ⟨fun ex h => readForever_closes evs logged ex h, rfl, rfl, ?_, ?_⟩
  · exact writeForever_closed evs wfInit rfl
  · simpa [wfInit] using writeForever_iterations evs wfInit

/-- Claim C2 (witness): at the one-completion trace ending in EOF, readForever
exits with the connection closed and writeForever is still open. -/
theorem transfer_loop_exit_paths_witness :
    ({ logged := [], closed := true } : ReadExit).closed = true ∧
    (writeForever wfInit [{ n := 3, err := some IOErr.eof }]).closed = false := by
  constructor
  · exact (transfer_loop_exit_paths [{ n := 3, err := some IOErr.eof }] [] 3 []).1
      { logged := [], closed := true } rfl
  · exact (transfer_loop_exit_paths [{ n := 3, err := some IOErr.eof }] [] 3 []).2.2.2.1

/-- Claim C4 (counterexample): at 2e8 bytes per second the largest unit whose
conversion keeps the displayed magnitude at least 1 is giga (display 1.6
gbps), but autoLabel selects mbps (display 1600), because its thresholds are
1e9 / 1e6 / 1e3 on the raw input, not on the displayed magnitude, and it has
no tera unit at all. -/
theorem autoLabel_not_largest_unit_cex :
    autoLabel 200000000 = (1600, "mbps") ∧
    autoLabelSpecC4 200000000 = (8 / 5, "gbps") ∧
    autoLabel 200000000 ≠ autoLabelSpecC4 200000000 := by
  refine ⟨by norm_num [autoLabel], by norm_num [autoLabelSpecC4], fun h => ?_⟩
  have h2 := congrArg Prod.snd h
  rw [autoLabel, autoLabelSpecC4] at h2
  norm_num at h2
  exact absurd h2 (by decide)

/-- Claim C4 (amended): autoLabel checks giga, mega, kilo, base in descending
order — there is no tera unit — selecting a unit when the raw input strictly
exceeds 1e9, 1e6, 1e3 respectively; every selected non-base unit keeps the
displayed magnitude at least 1, but the selected unit is not in general the
largest one that would do so. -/
theorem autoLabel_thresholds (bps : ℚ) (h : 0 ≤ bps) :
    ((autoLabel bps).2 ≠ "bps" → 1 ≤ (autoLabel bps).1) ∧
    (1000000000 < bps → autoLabel bps = (bps / 125000000, "gbps")) ∧
    (1000000 < bps → bps ≤ 1000000000 → autoLabel bps = (bps / 125000, "mbps")) ∧
    (1000 < bps → bps ≤ 1000000 → autoLabel bps = (bps / 125, "kbps")) ∧
    (bps ≤ 1000 → autoLabel bps = (bps, "bps")) := by
  refine ⟨?_, fun h1 => by simp [autoLabel, h1],
    fun h1 h2 => by simp [autoLabel, not_lt.mpr h2, h1],
    fun h1 h2 => by
      simp [autoLabel, not_lt.mpr (h2.trans (by norm_num : (1000000 : ℚ) ≤ 1000000000)),
        not_lt.mpr h2, h1],
    fun h1 => by
      simp [autoLabel, not_lt.mpr (h1.trans (by norm_num : (1000 : ℚ) ≤ 1000000000)),
        not_lt.mpr (h1.trans (by norm_num : (1000 : ℚ) ≤ 1000000)), not_lt.mpr h1]⟩
  intro hne
  by_cases h1 : 1000000000 < bps
  · simp only [autoLabel, if_pos h1]
    rw [le_div_iff (by norm_num)]
    linarith
  by_cases h2 : 1000000 < bps
  · simp only [autoLabel, if_neg (not_lt.mpr (not_lt.mp h1)), if_pos h2]
    rw [le_div_iff (by norm_num)]
    linarith
  by_cases h3 : 1000 < bps
  · simp only [autoLabel, if_neg (not_lt.mpr (not_lt.mp h1)),
      if_neg (not_lt.mpr (not_lt.mp h2)), if_pos h3]
    rw [le_div_iff (by norm_num)]
    linarith
  · simp [autoLabel, h1, h2, h3] at hne

/-- Claim C4 (witness): at 2e9 the theorem yields the giga selection. -/
theorem autoLabel_thresholds_witness :
    autoLabel 2000000000 = ((2000000000 : ℚ) / 125000000, "gbps") :=
  (autoLabel_thresholds 2000000000 (by norm_num)).2.1 (by norm_num)

/-- Claim C5 (counterexample): the spec's example boundary 1.25e8 bytes per
second is mapped by autoLabel to the lower unit mbps (display 1000), not to
gbps, and the actual threshold boundary 1e9 is also mapped to mbps (display
8000) because the comparisons are strict. -/
theorem autoLabel_boundary_cex :
    autoLabel 125000000 = (1000, "mbps") ∧
    autoLabel 1000000000 = (8000, "mbps") ∧
    ("mbps" : String) ≠ "gbps" :=
  ⟨by norm_num [autoLabel], by norm_num [autoLabel], by decide⟩

/-- Claim C5 (amended): at an input lying exactly on a threshold boundary of
the implementation (1e9, 1e6 or 1e3) autoLabel selects the lower unit, not
the higher one, since every comparison is strict. -/
theorem autoLabel_boundary_lower_unit :
    autoLabel 1000000000 = (8000, "mbps") ∧
    autoLabel 1000000 = (8000, "kbps") ∧
    autoLabel 1000 = (1000, "bps") :=
  ⟨by norm_num [autoLabel], by norm_num [autoLabel], by norm_num [autoLabel]⟩

/-- Claim C6: the interval and stop timers (modelled from the spec, their
definitions being absent from the sources) never fire for a configured delay
≤ 0 and fire exactly once, after the delay, for a positive one; consequently
a run whose interval timer never fires has no progress rounds and its output
is exactly the final summary lines. -/
theorem timer_and_interval_semantics (d : Int) :
    (d ≤ 0 → makeTimer d = none) ∧
    (0 < d → makeTimer d = some d) ∧
    (∀ sts fins, clientRun sts [] fins = finalLines 0 sts fins) := by
  refine ⟨fun hd => ?_, fun hd => ?_, fun sts fins => rfl⟩
  · simp [makeTimer, not_lt.mpr hd]
  · simp [makeTimer, hd]

/-- Claim C6 (witness): concrete timer delays and a round-free run. -/
theorem timer_and_interval_semantics_witness :
    makeTimer 0 = none ∧ makeTimer 5 = some 5 ∧
    clientRun [0] [] [(3, 1)] = finalLines 0 [0] [(3, 1)] :=
  ⟨(timer_and_interval_semantics 0).1 (by decide),
   (timer_and_interval_semantics 5).2.1 (by decide),
   (timer_and_interval_semantics 0).2.2 [0] [(3, 1)]⟩

/-- Claim C7 (counterexample): a sampling round whose clock observation
coincides with the saved last-sample time has a zero window denominator; the
code divides anyway and reports +Inf for the 5 bytes observed, not 0. -/
theorem zero_denominator_cex :
    (clientRun [0] [[(5, 0)]] []).getD 0 defaultLine =
      { id := 0, sentb := 5, period := 0, rate := GoFloat.posInf, mean := GoFloat.posInf } ∧
    GoFloat.posInf ≠ GoFloat.finite 0 := by
  constructor
  · norm_num [clientRun, runLoop, roundLines, roundLine, finalLines, initLasts, goDiv,
      u64sub, U64MOD]
  · intro h
    cases h

/-- Claim C7 (amended): a zero elapsed-time denominator is not guarded
against: the division is performed and yields +Inf for a positive numerator
and NaN for a zero one — never the finite value 0 — and that value is
reported as-is; the computation does not fail (goDiv is total), and the run
model does produce such divisions whenever the observed clock equals the
saved last-sample time. -/
theorem zero_denominator_behavior (a : ℚ) (st lt : ℚ) (lc c : Nat) :
    (0 < a → goDiv a 0 = GoFloat.posInf) ∧
    goDiv (0 : ℚ) 0 = GoFloat.nan ∧
    goDiv a 0 ≠ GoFloat.finite 0 ∧
    (roundLines 0 [st] [(lc, lt)] [(c, lt)]).map ReportLine.rate =
      [goDiv (u64sub c lc : Nat) 0] := by
  refine ⟨fun ha => ?_, by simp [goDiv], ?_, ?_⟩
  · simp [goDiv, ne_of_gt ha, ha]
  · unfold goDiv
    split_ifs <;> simp_all
  · simp [roundLines, roundLine]

/-- Claim C7 (witness): the division 5 / 0 evaluates to +Inf. -/
theorem zero_denominator_behavior_witness :
    goDiv (5 : ℚ) 0 = GoFloat.posInf :=
  (zero_denominator_behavior 5 0 0 0 5).1 (by norm_num)

/-- Claim C8: the per-connection byte counter is monotonically non-decreasing
over the run provided the total transferred stays below 2^64 (uint64 does not
wrap); each loop iteration adds exactly the returned byte count to the
counter, modulo 2^64, and nothing ever subtracts from or resets it — the
counter after writeForever is the initial value plus the sum of all returned
counts. -/
theorem counter_monotone (evs : List IOEvent) (c : Nat) (hc : c < U64MOD)
    (hno : c + (evs.map IOEvent.n).sum < U64MOD) :
    List.Chain' (· ≤ ·) (counterTrace c evs) ∧
    (∀ s : WriteState, s.count = c →
      (writeForever s evs).count = (c + (evs.map IOEvent.n).sum) % U64MOD) ∧
    (∀ e es, counterTrace c (e :: es) = c :: counterTrace ((c + e.n) % U64MOD) es) := by
  refine ⟨counterTrace_chain evs c hno, fun s hs => ?_, fun e es => rfl⟩
  rw [writeForever_count evs s (hs ▸ hc), hs]

/-- Claim C8 (witness): a three-step counter trace 0, 3, 7 is a non-decreasing
chain and writeForever ends at 7. -/
theorem counter_monotone_witness :
    List.Chain' (· ≤ ·) (counterTrace 0 [{ n := 3, err := none }, { n := 4, err := none }]) ∧
    (writeForever wfInit [{ n := 3, err := none }, { n := 4, err := none }]).count =
      (0 + ([{ n := 3, err := none }, { n := 4, err := none }].map IOEvent.n).sum) % U64MOD :=
  ⟨(counter_monotone [{ n := 3, err := none }, { n := 4, err := none }] 0 (by decide)
      (by decide)).1,
   (counter_monotone [{ n := 3, err := none }, { n := 4, err := none }] 0 (by decide)
      (by decide)).2.1 wfInit rfl⟩

/-- Claim C9 (counterexample): a byte count of 2e12 (two terabytes) is
labeled GB by the code (display 2000), not TB as the claim's TB/GB/MB/KB
table requires — the implementation's table has no TB entry. -/
theorem sentLabel_no_tb_cex :
    sentLabel 2000000000000 = (2000, "GB") ∧
    sentLabelSpecC9 2000000000000 = (2, "TB") ∧
    (sentLabel 2000000000000).2 ≠ (sentLabelSpecC9 2000000000000).2 := by
  refine ⟨by norm_num [sentLabel], by norm_num [sentLabelSpecC9], ?_⟩
  norm_num [sentLabel, sentLabelSpecC9]
  decide

/-- Claim C9 (amended): the byte-count label for the "bytes sent" display is
chosen from the table GB / MB / KB — there is no TB entry — by strict
thresholds at the powers of 1000 1e9 and 1e6 on the byte count, with KB the
fallback for every smaller count; the table is separate from and coarser than
the rate-unit table. -/
theorem sentLabel_table (sentb : Nat) :
    ((sentLabel sentb).2 = "GB" ∨ (sentLabel sentb).2 = "MB" ∨ (sentLabel sentb).2 = "KB") ∧
    (1000000000 < sentb → sentLabel sentb = ((sentb : ℚ) / 1000000000, "GB")) ∧
    (1000000 < sentb → sentb ≤ 1000000000 → sentLabel sentb = ((sentb : ℚ) / 1000000, "MB")) ∧
    (sentb ≤ 1000000 → sentLabel sentb = ((sentb : ℚ) / 1000, "KB")) := by
  refine ⟨?_, fun h1 => by simp [sentLabel, h1],
    fun h1 h2 => by simp [sentLabel, not_lt.mpr h2, h1],
    fun h1 => by
      simp [sentLabel, not_lt.mpr (h1.trans (by norm_num : (1000000 : Nat) ≤ 1000000000)),
        not_lt.mpr h1]⟩
  unfold sentLabel
  split_ifs <;> simp

/-- Claim C9 (witness): 5000 bytes are displayed in KB. -/
theorem sentLabel_table_witness :
    sentLabel 5000 = ((5000 : ℚ) / 1000, "KB") :=
  (sentLabel_table 5000).2.2.2 (by norm_num)

/-- Element k of a sampling round is the line for connection k. -/
theorem roundLines_getD (j k : Nat) (sts : List ℚ) (lasts reads : List (Nat × ℚ))
    (h1 : k < sts.length) (h2 : k < lasts.length) (h3 : k < reads.length) :
    (roundLines j sts lasts reads).getD k defaultLine =
      roundLine (j + k) (sts.getD k 0) (lasts.getD k (0, 0)) (reads.getD k (0, 0)) := by
  induction sts generalizing j k lasts reads with
  | nil => simp at h1
  | cons st sts ih =>
    match lasts, reads with
    | [], _ => simp at h2
    | _ :: _, [] => simp at h3
    | last :: lasts, obs :: reads =>
      cases k with
      | zero => simp [roundLines]
      | succ k =>
        have hrec := ih (j + 1) k lasts reads (by simpa using h1) (by simpa using h2)
          (by simpa using h3)
        simp only [roundLines, List.getD_cons_succ]
        rw [hrec]
        congr 1
        omega

/-- Element k of the final loop output is the final line of connection k. -/
theorem finalLines_getD (j k : Nat) (sts : List ℚ) (fins : List (Nat × ℚ))
    (h1 : k < sts.length) (h2 : k < fins.length) :
    (finalLines j sts fins).getD k defaultLine =
      { id := j + k, sentb := (fins.getD k (0, 0)).1,
        period := (fins.getD k (0, 0)).2 - sts.getD k 0,
        rate := goDiv ((fins.getD k (0, 0)).1 : Nat) ((fins.getD k (0, 0)).2 - sts.getD k 0),
        mean := goDiv ((fins.getD k (0, 0)).1 : Nat)
          ((fins.getD k (0, 0)).2 - sts.getD k 0) } := by
  induction sts generalizing j k fins with
  | nil => simp at h1
  | cons st sts ih =>
    match fins with
    | [] => simp at h2
    | obs :: fins =>
      cases k with
      | zero => simp [finalLines]
      | succ k =>
        have hrec := ih (j + 1) k fins (by simpa using h1) (by simpa using h2)
        simp only [finalLines, List.getD_cons_succ]
        rw [hrec]
        congr 1
        omega

/-- Unfolding of windowsFor over one round. -/
theorem windowsFor_cons (sts : List ℚ) (lasts : List (Nat × ℚ)) (r : List (Nat × ℚ))
    (rs : List (List (Nat × ℚ))) (id : Nat) :
    windowsFor sts lasts (r :: rs) id =
      ((roundLines 0 sts lasts r).getD id defaultLine).sentb :: windowsFor sts r rs id := rfl

/-- The reported window bytes of one connection are the successive uint64
differences of its counter observations: the loop saves each observation into
lastCounts, so round k is differenced against round k-1. -/
theorem windowsFor_eq (rounds : List (List (Nat × ℚ))) (sts : List ℚ)
    (lasts : List (Nat × ℚ)) (id : Nat) (h1 : id < sts.length) (h2 : id < lasts.length)
    (hr : ∀ r ∈ rounds, r.length = sts.length) :
    windowsFor sts lasts rounds id =
      connWindows (lasts.getD id (0, 0)).1 (rounds.map fun r => (r.getD id (0, 0)).1) := by
  induction rounds generalizing lasts with
  | nil => rfl
  | cons r rs ih =>
    have hrlen : id < r.length := by rw [hr r (by simp)]; exact h1
    rw [windowsFor_cons, List.map_cons, connWindows]
    rw [roundLines_getD 0 id sts lasts r h1 h2 hrlen]
    rw [ih r hrlen (fun x hx => hr x (by simp [hx]))]
    rfl

/-- The head of a non-decreasing chain bounds its last element. -/
theorem chain_le_getLastD (cs : List Nat) (c : Nat)
    (h : List.Chain' (· ≤ ·) (c :: cs)) : c ≤ cs.getLastD c := by
  induction cs generalizing c with
  | nil => simp
  | cons b bs ih =>
    rw [List.chain'_cons] at h
    rw [List.getLastD_cons]
    exact le_trans h.1 (ih b h.2)

/-- Telescoping: for monotone observations below 2^64 the windows sum to the
last observation minus the starting value. -/
theorem connWindows_sum (cs : List Nat) (lc : Nat)
    (hchain : List.Chain' (· ≤ ·) (lc :: cs)) (hb : ∀ x ∈ lc :: cs, x < U64MOD) :
    (connWindows lc cs).sum = cs.getLastD lc - lc := by
  induction cs generalizing lc with
  | nil => simp [connWindows]
  | cons c cs ih =>
    rw [List.chain'_cons] at hchain
    have hc : c < U64MOD := hb c (by simp)
    rw [connWindows, List.sum_cons, u64sub_eq hchain.1 hc]
    rw [ih c hchain.2 (fun x hx => hb x (by simp at hx ⊢; tauto))]
    have hle : c ≤ cs.getLastD c := chain_le_getLastD cs c hchain.2
    rw [List.getLastD_cons]
    omega

/-- Window k is the uint64 difference of observation k and its predecessor. -/
theorem connWindows_getD (cs : List Nat) (lc : Nat) (k : Nat) (hk : k < cs.length) :
    (connWindows lc cs).getD k 0 = u64sub (cs.getD k 0) ((lc :: cs).getD k 0) := by
  induction cs generalizing lc k with
  | nil => simp at hk
  | cons c cs ih =>
    cases k with
    | zero => simp [connWindows]
    | succ k => simpa [connWindows] using ih c k (by simpa using hk)

/-- Claim C3 (counterexample): one connection samples once, with counter 10 at
t = 1, then stops with counter 15 at t = 2.  The windows reported for the
connection are [10], summing to 10, while the final line reports the total
15: the final total byte count differs from the sum of the reported
windowBytes, because the bytes counted after the last progress sample appear
in the total but in no reported window. -/
theorem final_total_ne_sum_windows_cex :
    (clientRun [0] [[(10, 1)]] [(15, 2)]).map ReportLine.sentb = [10, 15] ∧
    (windowsFor [0] (initLasts [0]) [[(10, 1)]] 0).sum = 10 ∧
    ((finalLines 0 [0] [(15, 2)]).getD 0 defaultLine).sentb = 15 ∧
    (15 : Nat) ≠ 10 := by
  refine ⟨?_, ?_, ?_, by decide⟩
  · norm_num [clientRun, runLoop, roundLines, roundLine, finalLines, initLasts, u64sub, U64MOD]
  · decide
  · decide

/-- Claim C3 (amended): for every connection, under monotone counter
observations below 2^64, every reported windowBytes equals counter(t2) -
counter(t1) for its consecutive sample pair, and the reported windows sum to
the counter at the last progress sample — nothing is double-counted or
dropped across sampling boundaries; the final line, however, reports the
counter at stop time, which equals the sum of the reported windows plus the
bytes counted after the last progress sample (and can therefore exceed that
sum). -/
theorem windows_telescope (sts : List ℚ) (rounds : List (List (Nat × ℚ)))
    (fins : List (Nat × ℚ)) (id : Nat)
    (h1 : id < sts.length)
    (hr : ∀ r ∈ rounds, r.length = sts.length)
    (hf : id < fins.length)
    (hchain : List.Chain' (· ≤ ·) (0 :: rounds.map fun r => (r.getD id (0, 0)).1))
    (hb : ∀ r ∈ rounds, (r.getD id (0, 0)).1 < U64MOD)
    (hlast : (rounds.map fun r => (r.getD id (0, 0)).1).getLastD 0 ≤ (fins.getD id (0, 0)).1) :
    windowsFor sts (initLasts sts) rounds id =
      connWindows 0 (rounds.map fun r => (r.getD id (0, 0)).1) ∧
    (∀ k, k < rounds.length →
      (windowsFor sts (initLasts sts) rounds id).getD k 0 =
        ((rounds.map fun r => (r.getD id (0, 0)).1).getD k 0) -
          ((0 :: rounds.map fun r => (r.getD id (0, 0)).1).getD k 0)) ∧
    (windowsFor sts (initLasts sts) rounds id).sum =
      (rounds.map fun r => (r.getD id (0, 0)).1).getLastD 0 ∧
    ((finalLines 0 sts fins).getD id defaultLine).sentb = (fins.getD id (0, 0)).1 ∧
    (fins.getD id (0, 0)).1 =
      (windowsFor sts (initLasts sts) rounds id).sum +
        ((fins.getD id (0, 0)).1 -
          (windowsFor sts (initLasts sts) rounds id).sum) := by
  have h2 : id < (initLasts sts).length := by simpa [initLasts] using h1
  have hinit : ((initLasts sts).getD id (0, 0)).1 = 0 := by
    rw [List.getD_eq_getElem _ _ h2]
    simp [initLasts, List.getElem_map]
  have hwin : windowsFor sts (initLasts sts) rounds id =
      connWindows 0 (rounds.map fun r => (r.getD id (0, 0)).1) := by
    rw [windowsFor_eq rounds sts (initLasts sts) id h1 h2 hr, hinit]
  have hmem : ∀ x ∈ (0 : Nat) :: rounds.map fun r => (r.getD id (0, 0)).1, x < U64MOD := by
    intro x hx
    rcases List.mem_cons.1 hx with h0 | hmap
    · subst h0; unfold U64MOD; positivity
    · rcases List.mem_map.1 hmap with ⟨r, hrm, hrx⟩
      exact hrx ▸ hb r hrm
  have hsum : (windowsFor sts (initLasts sts) rounds id).sum =
      (rounds.map fun r => (r.getD id (0, 0)).1).getLastD 0 := by
    rw [hwin, connWindows_sum _ 0 hchain hmem]
    omega
  refine ⟨hwin, ?_, hsum, ?_, ?_⟩
  · intro k hk
    have hklen : k < (rounds.map fun r => (r.getD id (0, 0)).1).length := by simpa using hk
    rw [hwin, connWindows_getD _ 0 k hklen]
    set reads := rounds.map fun r => (r.getD id (0, 0)).1 with hreads
    have hadj : (0 :: reads).getD k 0 ≤ reads.getD k 0 := by
      have hchain2 := List.chain'_iff_get.1 hchain k (by simpa using hklen)
      rw [List.getD_eq_get _ _ hklen,
        List.getD_eq_get (0 :: reads) 0 (show k < (0 :: reads).length by simp; omega)]
      simpa using hchain2
    have hcurb : reads.getD k 0 < U64MOD := by
      apply hmem
      rw [List.getD_eq_get _ _ hklen]
      exact List.mem_cons_of_mem _ (List.get_mem reads k hklen)
    rw [u64sub_eq hadj hcurb]
  · rw [finalLines_getD 0 id sts fins h1 hf]
  · rw [hsum]
    omega

/-- Claim C3 (witness): one connection, observations 10 then 30, final 45:
the windows [10, 20] sum to 30, the last sampled count, and the final line
reports 45. -/
theorem windows_telescope_witness :
    (windowsFor [0] (initLasts [0]) [[(10, 1)], [(30, 2)]] 0).sum =
      (([[(10, 1)], [(30, 2)]] : List (List (Nat × ℚ))).map
        fun r => (r.getD 0 (0, 0)).1).getLastD 0 ∧
    ((finalLines 0 [0] [(45, 3)]).getD 0 defaultLine).sentb =
      (([(45, 3)] : List (Nat × ℚ)).getD 0 (0, 0)).1 := by
  have h := windows_telescope [0] [[(10, 1)], [(30, 2)]] [(45, 3)] 0 (by decide)
    (by decide) (by decide) (by simp [List.chain'_cons]) (by decide) (by decide)
  exact ⟨h.2.2.1, h.2.2.2.1⟩

/-- A failing connection attempt makes the NewClient loop return at once,
with the connections built so far and no Close call. -/
theorem newClientGo_step_fail (p : Protocol) (hp : p ≠ Protocol.other) (s : Int)
    (oracle : Nat → AttemptResult) (i rem : Nat) (conns : List Nat)
    (hfail : attemptErr s (oracle i) ≠ none) :
    newClientGo p s oracle i (rem + 1) conns =
      { conns := conns, err := attemptErr s (oracle i), closedConns := [] } := by
  cases p with
  | other => exact absurd rfl hp
  | tcp =>
    cases hd : (oracle i).dialErr <;> by_cases hs : (0 : Int) < s <;>
      cases hw : (oracle i).setWriteErr <;> cases hrd : (oracle i).setReadErr <;>
      simp_all [newClientGo, attemptErr]
  | udp =>
    cases hd : (oracle i).dialErr <;> by_cases hs : (0 : Int) < s <;>
      cases hw : (oracle i).setWriteErr <;> cases hrd : (oracle i).setReadErr <;>
      simp_all [newClientGo, attemptErr]

/-- A successful attempt appends its connection and continues the loop. -/
theorem newClientGo_step_ok (p : Protocol) (hp : p ≠ Protocol.other) (s : Int)
    (oracle : Nat → AttemptResult) (i rem : Nat) (conns : List Nat)
    (hok : attemptErr s (oracle i) = none) :
    newClientGo p s oracle i (rem + 1) conns =
      newClientGo p s oracle (i + 1) rem (conns ++ [i]) := by
  cases p with
  | other => exact absurd rfl hp
  | tcp =>
    cases hd : (oracle i).dialErr <;> by_cases hs : (0 : Int) < s <;>
      cases hw : (oracle i).setWriteErr <;> cases hrd : (oracle i).setReadErr <;>
      simp_all [newClientGo, attemptErr]
  | udp =>
    cases hd : (oracle i).dialErr <;> by_cases hs : (0 : Int) < s <;>
      cases hw : (oracle i).setWriteErr <;> cases hrd : (oracle i).setReadErr <;>
      simp_all [newClientGo, attemptErr]

/-- When attempts before k succeed and attempt k fails, the NewClient loop
returns the k established connections, the failing attempt's error, and
closes nothing. -/
theorem newClientGo_spec (p : Protocol) (hp : p ≠ Protocol.other) (s : Int)
    (oracle : Nat → AttemptResult) (k : Nat) :
    ∀ rem i conns, k < rem →
      (∀ j, j < k → attemptErr s (oracle (i + j)) = none) →
      attemptErr s (oracle (i + k)) ≠ none →
      newClientGo p s oracle i rem conns =
        { conns := conns ++ (List.range k).map (fun j => i + j),
          err := attemptErr s (oracle (i + k)), closedConns := [] } := by
  induction k with
  | zero =>
    intro rem i conns hrem hok hfail
    match rem, hrem with
    | m + 1, _ =>
      rw [newClientGo_step_fail p hp s oracle i m conns (by simpa using hfail)]
      simp
  | succ k ih =>
    intro rem i conns hrem hok hfail
    match rem, hrem with
    | m + 1, _ =>
      rw [newClientGo_step_ok p hp s oracle i m conns (by simpa using hok 0 (Nat.succ_pos k))]
      rw [ih m (i + 1) (conns ++ [i]) (by omega)
        (fun j hj => by
          have := hok (j + 1) (by omega)
          rwa [show i + (j + 1) = i + 1 + j by omega] at this)
        (by rwa [show i + 1 + k = i + (k + 1) by omega])]
      rw [show i + 1 + k = i + (k + 1) from by omega]
      congr 1
      rw [List.append_assoc]
      congr 1
      rw [List.range_succ_eq_map, List.map_cons, List.map_map, List.singleton_append]
      congr 1
      refine List.map_congr_left fun x hx => ?_
      simp only [Function.comp_apply]
      omega

/-- Claim C10: if creating or tuning the k-th connection fails while building
the connection set (for a known protocol), NewClient returns that attempt's
error immediately — the loop stops, so the run aborts rather than continuing
with fewer streams — and the k connections established before the failure are
kept in the returned set, still open: no path of NewClient performs a Close,
so no cleanup happens on the error path. -/
theorem newClient_aborts_without_cleanup (p : Protocol) (s : Int) (numConns k : Nat)
    (oracle : Nat → AttemptResult) (hp : p ≠ Protocol.other) (hk : k < numConns)
    (hok : ∀ j, j < k → attemptErr s (oracle j) = none)
    (hfail : attemptErr s (oracle k) ≠ none) :
    NewClient p s numConns oracle =
      { conns := List.range k, err := attemptErr s (oracle k), closedConns := [] } := by
  unfold NewClient
  have h := newClientGo_spec p hp s oracle k numConns 0 [] hk
    (fun j hj => by simpa using hok j hj) (by simpa using hfail)
  simpa using h

/-- Claim C10 (witness): three requested tcp connections with the second dial
failing — NewClient returns connection 0 (still open, never closed) and the
dial error. -/
theorem newClient_aborts_without_cleanup_witness :
    NewClient Protocol.tcp 1 3
      (fun i => { dialErr := decide (i = 1), setWriteErr := false, setReadErr := false }) =
      { conns := [0], err := some NCErr.dialFailed, closedConns := [] } :=
  (newClient_aborts_without_cleanup Protocol.tcp 1 3 1
    (fun i => { dialErr := decide (i = 1), setWriteErr := false, setReadErr := false })
    (by decide) (by decide) (by decide) (by decide)).trans (by decide)
